import Mathlib

/-
Verification of the QEMU emulator session harness: the QEMURunner class of
tests/conftest.py and the QEMUManager class of setup.py.  Byte strings are
modelled as lists of naturals, the serial socket as a record with a connected
flag, and the background reader loop, the start/stop lifecycle and the queue
protocol as explicit state-passing functions over those types.
-/

namespace QemuHarness

/-- ASCII whitespace bytes removed by the Python bytes strip method. -/
def isSpace (b : Nat) : Bool :=
  b == 32 || b == 9 || b == 10 || b == 13 || b == 11 || b == 12

/-- Removes leading whitespace bytes. -/
def lstrip (bs : List Nat) : List Nat := bs.dropWhile isSpace

/-- Removes trailing whitespace bytes only; this is what the spec sentence
about trimming trailing whitespace and carriage returns describes. -/
def rstrip (bs : List Nat) : List Nat := (bs.reverse.dropWhile isSpace).reverse

/-- Python bytes strip with no argument: whitespace removed from both ends.
This is the operation the reader applies to each extracted line. -/
def strip (bs : List Nat) : List Nat := rstrip (lstrip bs)

/-- Model of splitting the buffer at the first newline byte, as in the call
buffer.split at the newline with count one: the prefix before the first 10
and the remainder after it, or none when no newline is present. -/
def splitFirstNL : List Nat → Option (List Nat × List Nat)
  | [] => none
  | b :: rest =>
    if b = 10 then some ([], rest)
    else
      match splitFirstNL rest with
      | some p => some (b :: p.1, p.2)
      | none => none

/-- The inner loop of the reader of QEMURunner: while a newline is in the
buffer, split off the first line, strip it and emit it.  Fuel bounds the
iterations; the buffer length is always sufficient since every iteration
consumes at least the newline byte. -/
def drainBufferFuel : Nat → List Nat → List (List Nat) × List Nat
  | 0, bs => ([], bs)
  | fuel + 1, bs =>
    match splitFirstNL bs with
    | some p =>
      let d := drainBufferFuel fuel p.2
      (strip p.1 :: d.1, d.2)
    | none => ([], bs)

/-- Extracts every complete newline-terminated line from the buffer, stripped
as the code strips them, together with the remaining unterminated buffer. -/
def drainBuffer (bs : List Nat) : List (List Nat) × List Nat :=
  drainBufferFuel bs.length bs

/-- One iteration of the reader on a received chunk: the code appends the
chunk to the buffer only when the chunk is nonempty, then drains lines. -/
def readerStep (buffer data : List Nat) : List (List Nat) × List Nat :=
  if data = [] then ([], buffer) else drainBuffer (buffer ++ data)

/-- The reader processing a whole sequence of received chunks, collecting the
lines it enqueues and the final buffer content. -/
def processChunks : List Nat → List (List Nat) → List (List Nat) × List Nat
  | buffer, [] => ([], buffer)
  | buffer, c :: cs =>
    let r := readerStep buffer c
    let r2 := processChunks r.2 cs
    (r.1 ++ r2.1, r2.2)

/-- Specification-side view of a byte stream: its newline-terminated segments
(unstripped, in order) and the trailing segment after the last newline. -/
def splitSegs : List Nat → List (List Nat) × List Nat
  | [] => ([], [])
  | b :: rest =>
    let r := splitSegs rest
    if b = 10 then ([] :: r.1, r.2)
    else
      match r.1 with
      | [] => ([], b :: r.2)
      | s :: ss => ((b :: s) :: ss, r.2)

/-- Model of the Python socket object held in the serial attribute: the
constructor returns an unconnected socket, and connect makes it connected. -/
structure SocketObj where
  connected : Bool
deriving DecidableEq

/-- State of a QEMURunner instance from tests/conftest.py: the subprocess
handle, the serial socket, the output queue of framed lines and the reader
thread flag. -/
structure QEMURunner where
  process : Option Unit
  serial : Option SocketObj
  output_queue : List (List Nat)
  reader_thread : Bool
deriving DecidableEq

/-- Outcome of a start call: normal return, or the RuntimeError raised when
the connection guard fires (the StartError of the spec). -/
inductive StartResult
  | ok
  | startError
deriving DecidableEq

/-- Resource actions performed by the lifecycle methods, in program order. -/
inductive Action
  | popen
  | closeSerial
  | terminateProc
deriving DecidableEq

/-- Python exceptions that the send paths can raise. -/
inductive PyExn
  | attributeError
  | osError
deriving DecidableEq

/-- The connection loop of start: each iteration first assigns a fresh
unconnected socket to the serial attribute, then attempts connect; on success
it breaks with the connected socket, on failure it sleeps and retries.  The
attempts list gives the outcome of each connect call made before the overall
timeout elapses; when the list is exhausted the loop falls through with
whatever the serial attribute last held. -/
def connectLoop : List Bool → Option SocketObj → Option SocketObj
  | [], serial => serial
  | a :: rest, _ =>
    if a then some { connected := true }
    else connectLoop rest (some { connected := false })

/-- The stop method of QEMURunner together with the ordered resource actions
it performs: close the serial socket first (when present), then terminate and
wait on the subprocess (when present).  The output queue is untouched. -/
def QEMURunner.stopT (s : QEMURunner) : QEMURunner × List Action :=
  ({ s with serial := none, process := none },
    (if s.serial.isSome then [Action.closeSerial] else []) ++
      (if s.process.isSome then [Action.terminateProc] else []))

/-- The stop method of QEMURunner, state part. -/
def QEMURunner.stop (s : QEMURunner) : QEMURunner := s.stopT.1

/-- The start method of QEMURunner with its resource-action trace: stop first
when a process exists, launch the subprocess, run the connection loop, raise
RuntimeError only when the serial attribute is still none afterwards, and
otherwise start the reader thread and return normally. -/
def QEMURunner.startT (s : QEMURunner) (attempts : List Bool) :
    QEMURunner × StartResult × List Action :=
  let p := if s.process.isSome then QEMURunner.stopT s else (s, [])
  let s2 := { p.1 with
    process := some ()
    serial := connectLoop attempts p.1.serial }
  if s2.serial.isSome then
    ({ s2 with reader_thread := true }, StartResult.ok, p.2 ++ [Action.popen])
  else (s2, StartResult.startError, p.2 ++ [Action.popen])

/-- The start method of QEMURunner, without the action trace. -/
def QEMURunner.start (s : QEMURunner) (attempts : List Bool) :
    QEMURunner × StartResult :=
  ((s.startT attempts).1, (s.startT attempts).2.1)

/-- The send method of QEMURunner: it dereferences the serial attribute
unconditionally, so a missing socket raises AttributeError and an unconnected
socket raises OSError from the socket send call. -/
def QEMURunner.send (s : QEMURunner) (data : List Nat) : Except PyExn Unit :=
  match s.serial with
  | none => Except.error PyExn.attributeError
  | some sock =>
    if sock.connected then Except.ok () else Except.error PyExn.osError

/-- The read_line method: pop the next line from the output queue, or return
none when the queue stays empty for the whole timeout. -/
def QEMURunner.read_line (s : QEMURunner) : QEMURunner × Option (List Nat) :=
  match s.output_queue with
  | [] => (s, none)
  | l :: rest => ({ s with output_queue := rest }, some l)

/-- Tests whether the byte string hay starts with the byte string needle. -/
def listStartsWith : List Nat → List Nat → Bool
  | _, [] => true
  | [], _ :: _ => false
  | a :: as, b :: bs => a == b && listStartsWith as bs

/-- Python bytes containment: needle occurs contiguously inside hay. -/
def bytesContains : List Nat → List Nat → Bool
  | [], needle => listStartsWith [] needle
  | h :: rest, needle => listStartsWith (h :: rest) needle || bytesContains rest needle

/-- The polling loop of read_until: each fuel unit is one call of read_line
with the short sub-timeout; a popped line is appended and checked for the
pattern only when it is truthy, that is nonempty. -/
def read_untilGo (expected : List Nat) :
    Nat → QEMURunner → List (List Nat) → QEMURunner × List (List Nat)
  | 0, s, lines => (s, lines)
  | fuel + 1, s, lines =>
    match QEMURunner.read_line s with
    | (s2, none) => read_untilGo expected fuel s2 lines
    | (s2, some l) =>
      if l = [] then read_untilGo expected fuel s2 lines
      else if bytesContains l expected then (s2, lines ++ [l])
      else read_untilGo expected fuel s2 (lines ++ [l])

/-- The read_until method of QEMURunner, with fuel standing for the number of
sub-timeout polls that fit in the overall timeout. -/
def QEMURunner.read_until (s : QEMURunner) (expected : List Nat) (fuel : Nat) :
    QEMURunner × List (List Nat) :=
  read_untilGo expected fuel s []

/-- State of the QEMUManager instance from setup.py. -/
structure QEMUManager where
  process : Option Unit
  serial : Option SocketObj
deriving DecidableEq

/-- The stop_qemu method of QEMUManager, state part: both resources nulled. -/
def QEMUManager.stop_qemu (m : QEMUManager) : QEMUManager :=
  { m with process := none, serial := none }

/-- The ordered resource actions of stop_qemu: the code terminates and waits
on the process first, and closes the serial socket afterwards. -/
def stopQemuTrace (m : QEMUManager) : List Action :=
  (if m.process.isSome then [Action.terminateProc] else []) ++
    (if m.serial.isSome then [Action.closeSerial] else [])

/-- The send_serial method of QEMUManager: sends and returns true when a
serial socket is held, otherwise returns false as a normal value. -/
def QEMUManager.send_serial (m : QEMUManager) (data : List Nat) : Bool :=
  m.serial.isSome

/-- A lifecycle operation applied to a QEMURunner. -/
inductive Op
  | opStart (attempts : List Bool)
  | opStop
deriving DecidableEq

/-- The state change and action trace of one lifecycle operation. -/
def traceOf (s : QEMURunner) : Op → QEMURunner × List Action
  | Op.opStart attempts =>
    let r := s.startT attempts
    (r.1, r.2.2)
  | Op.opStop => s.stopT

/-- Runs a sequence of lifecycle operations, concatenating action traces. -/
def runOps : QEMURunner → List Op → QEMURunner × List Action
  | s, [] => (s, [])
  | s, op :: ops =>
    let r := traceOf s op
    let r2 := runOps r.1 ops
    (r2.1, r.2 ++ r2.2)

/-- Contribution of one action to the number of live subprocesses. -/
def procDelta : Action → Int
  | Action.popen => 1
  | Action.terminateProc => -1
  | Action.closeSerial => 0

/-- Net change in live subprocesses over a trace. -/
def procCount (tr : List Action) : Int := (tr.map procDelta).sum

/-- Checks that, starting from n live subprocesses, the running count never
exceeds one anywhere along the trace. -/
def neverTwoLive : Int → List Action → Bool
  | _, [] => true
  | n, a :: tr => decide (n + procDelta a ≤ 1) && neverTwoLive (n + procDelta a) tr

/-- Number of live subprocesses recorded in a runner state. -/
def stateCount (s : QEMURunner) : Int := if s.process.isSome then 1 else 0

/-- Checks that every terminateProc action in the trace is preceded by an
earlier closeSerial; the flag carries whether a close has been seen. -/
def termAfterClose : List Action → Bool → Bool
  | [], _ => true
  | Action.closeSerial :: tr, _ => termAfterClose tr true
  | Action.terminateProc :: tr, seen => seen && termAfterClose tr seen
  | Action.popen :: tr, seen => termAfterClose tr seen

/-- One observed iteration of the reader loop of QEMURunner: the socket recv
either times out, returns a chunk of bytes (empty on a closed peer), or
raises some other exception. -/
inductive ReadEvent
  | timeout
  | data (bs : List Nat)
  | connError
deriving DecidableEq

/-- Why the reader loop exited. -/
inductive LoopExit
  | stopSignal
  | connBroken
deriving DecidableEq

/-- The reader loop of QEMURunner over a sequence of iterations, each pairing
the value of the while condition (the serial attribute is still set) with the
recv outcome: a timeout is passed over, a nonempty chunk is framed into
lines, any other exception breaks the loop, and a cleared serial attribute
ends the loop.  Returns the lines enqueued and the exit reason, none meaning
the loop is still running after the given iterations. -/
def readerLoop : List Nat → List (Bool × ReadEvent) → List (List Nat) × Option LoopExit
  | _, [] => ([], none)
  | buf, step :: rest =>
    if step.1 then
      match step.2 with
      | ReadEvent.timeout => readerLoop buf rest
      | ReadEvent.connError => ([], some LoopExit.connBroken)
      | ReadEvent.data bs =>
        if bs = [] then readerLoop buf rest
        else
          let d := drainBuffer (buf ++ bs)
          let r := readerLoop d.2 rest
          (d.1 ++ r.1, r.2)
    else ([], some LoopExit.stopSignal)

/-- Events on the shared output queue: the reader enqueues a framed line, or
a consumer read_line call dequeues. -/
inductive QEvent
  | enq (l : List Nat)
  | deq
deriving DecidableEq

/-- Queue contents together with the lines consumers have received so far. -/
structure QueueState where
  queue : List (List Nat)
  consumed : List (List Nat)
deriving DecidableEq

/-- FIFO semantics of the shared queue under an interleaving of producer
enqueues and consumer dequeues; a dequeue on an empty queue returns none to
the caller and consumes nothing. -/
def runQueue : QueueState → List QEvent → QueueState
  | st, [] => st
  | st, QEvent.enq l :: evs => runQueue { st with queue := st.queue ++ [l] } evs
  | st, QEvent.deq :: evs =>
    match st.queue with
    | [] => runQueue st evs
    | h :: t => runQueue { queue := t, consumed := st.consumed ++ [h] } evs

/-- The lines enqueued by the producer over a trace, in order. -/
def enqueued : List QEvent → List (List Nat)
  | [] => []
  | QEvent.enq l :: evs => l :: enqueued evs
  | QEvent.deq :: evs => enqueued evs

/-- A runner as built by the fixture constructor: nothing started yet. -/
def freshRunner : QEMURunner :=
  { process := none, serial := none, output_queue := [], reader_thread := false }

/-- A runner whose queue holds an empty framed line followed by the line OK. -/
def runnerWithEmptyLine : QEMURunner :=
  { process := none, serial := none, output_queue := [[], [79, 75]],
    reader_thread := false }

/-- A fully started runner. -/
def liveRunner : QEMURunner :=
  { process := some (), serial := some { connected := true },
    output_queue := [], reader_thread := true }

/-- A manager before start_qemu has ever run. -/
def freshManager : QEMUManager := { process := none, serial := none }

/-- A manager with a live subprocess and a connected serial socket. -/
def liveManager : QEMUManager :=
  { process := some (), serial := some { connected := true } }

/-- Splitting at the first newline strictly shrinks the remainder. -/
theorem splitFirstNL_sub {bs : List Nat} {p : List Nat × List Nat}
    (h : splitFirstNL bs = some p) : p.2.length < bs.length := by
  induction bs generalizing p with
  | nil => simp [splitFirstNL] at h
  | cons b rest ih =>
    by_cases hb : b = 10
    · simp only [splitFirstNL, if_pos hb, Option.some.injEq] at h
      subst h
      simp
    · simp only [splitFirstNL, if_neg hb] at h
      cases hr : splitFirstNL rest with
      | none => rw [hr] at h; simp at h
      | some q =>
        rw [hr] at h
        simp only [Option.some.injEq] at h
        subst h
        have := ih hr
        simp only [List.length_cons]
        omega

/-- A successful first-newline split is stable under appending further bytes
on the right: the same first line comes off, the suffix grows. -/
theorem splitFirstNL_append_some {b d : List Nat} {p : List Nat × List Nat}
    (h : splitFirstNL b = some p) :
    splitFirstNL (b ++ d) = some (p.1, p.2 ++ d) := by
  induction b generalizing p with
  | nil => simp [splitFirstNL] at h
  | cons x rest ih =>
    by_cases hx : x = 10
    · simp only [splitFirstNL, if_pos hx, Option.some.injEq] at h
      subst h
      simp [splitFirstNL, hx]
    · simp only [splitFirstNL, if_neg hx] at h
      cases hr : splitFirstNL rest with
      | none => rw [hr] at h; simp at h
      | some q =>
        rw [hr] at h
        simp only [Option.some.injEq] at h
        subst h
        simp [splitFirstNL, hx, ih hr]

/-- With no newline in the buffer the drain loop emits nothing, whatever the
fuel. -/
theorem drainBufferFuel_none (fuel : Nat) (bs : List Nat)
    (h : splitFirstNL bs = none) : drainBufferFuel fuel bs = ([], bs) := by
  cases fuel <;> simp [drainBufferFuel, h]

/-- Unfolding of one drain iteration when a newline is present. -/
theorem drainBufferFuel_some (fuel : Nat) (bs : List Nat)
    (p : List Nat × List Nat) (h : splitFirstNL bs = some p) :
    drainBufferFuel (fuel + 1) bs =
      (strip p.1 :: (drainBufferFuel fuel p.2).1, (drainBufferFuel fuel p.2).2) := by
  simp [drainBufferFuel, h]

/-- Any fuel at least the buffer length gives the same drain result. -/
theorem drainBufferFuel_stable :
    ∀ (n : Nat) (bs : List Nat) (fuel : Nat), bs.length ≤ n → bs.length ≤ fuel →
      drainBufferFuel fuel bs = drainBufferFuel bs.length bs := by
  intro n
  induction n with
  | zero =>
    intro bs fuel h1 _
    have hb : bs = [] := List.length_eq_zero.mp (Nat.le_zero.mp h1)
    subst hb
    cases fuel <;> simp [drainBufferFuel, splitFirstNL]
  | succ k ih =>
    intro bs fuel h1 h2
    cases hs : splitFirstNL bs with
    | none => rw [drainBufferFuel_none fuel bs hs, drainBufferFuel_none bs.length bs hs]
    | some p =>
      have hlt := splitFirstNL_sub hs
      cases fuel with
      | zero => omega
      | succ f =>
        cases hl : bs.length with
        | zero => omega
        | succ m =>
          rw [hl] at h1 h2
          rw [drainBufferFuel_some f bs p hs, drainBufferFuel_some m bs p hs]
          have hp2f : p.2.length ≤ f := by omega
          have hp2m : p.2.length ≤ m := by omega
          have hp2k : p.2.length ≤ k := by omega
          rw [ih p.2 f hp2k hp2f, ih p.2 m hp2k hp2m]

/-- Unfolding of drainBuffer when the buffer holds no newline. -/
theorem drainBuffer_none {bs : List Nat} (h : splitFirstNL bs = none) :
    drainBuffer bs = ([], bs) :=
  drainBufferFuel_none bs.length bs h

/-- Unfolding of drainBuffer when the buffer holds a newline: the first line
comes off stripped and the rest of the buffer is drained in turn. -/
theorem drainBuffer_some {bs : List Nat} {p : List Nat × List Nat}
    (h : splitFirstNL bs = some p) :
    drainBuffer bs = (strip p.1 :: (drainBuffer p.2).1, (drainBuffer p.2).2) := by
  have hlt := splitFirstNL_sub h
  cases hl : bs.length with
  | zero => omega
  | succ m =>
    have h1 : drainBuffer bs = drainBufferFuel (m + 1) bs := by
      rw [drainBuffer, hl]
    rw [h1, drainBufferFuel_some m bs p h]
    have hm : p.2.length ≤ m := by omega
    have h2 : drainBufferFuel m p.2 = drainBuffer p.2 :=
      drainBufferFuel_stable p.2.length p.2 m le_rfl hm
    rw [h2]

/-- Draining a concatenation equals draining the first part and then draining
its residue extended by the second part. -/
theorem drainBuffer_append :
    ∀ (n : Nat) (b : List Nat), b.length ≤ n → ∀ d : List Nat,
      drainBuffer (b ++ d) =
        ((drainBuffer b).1 ++ (drainBuffer ((drainBuffer b).2 ++ d)).1,
          (drainBuffer ((drainBuffer b).2 ++ d)).2) := by
  intro n
  induction n with
  | zero =>
    intro b hb d
    have hbnil : b = [] := List.length_eq_zero.mp (Nat.le_zero.mp hb)
    subst hbnil
    simp [show drainBuffer [] = (([] : List (List Nat)), ([] : List Nat)) from rfl]
  | succ k ih =>
    intro b hb d
    cases hs : splitFirstNL b with
    | none =>
      rw [drainBuffer_none hs]
      simp
    | some p =>
      have hlt := splitFirstNL_sub hs
      have hsa := splitFirstNL_append_some (d := d) hs
      rw [drainBuffer_some hs, drainBuffer_some hsa]
      have ihp := ih p.2 (by omega) d
      simp only [ihp]
      simp [List.cons_append]

/-- The drained residue never contains a newline. -/
theorem drainBuffer_residue :
    ∀ (n : Nat) (bs : List Nat), bs.length ≤ n →
      splitFirstNL (drainBuffer bs).2 = none := by
  intro n
  induction n with
  | zero =>
    intro bs hb
    have hbnil : bs = [] := List.length_eq_zero.mp (Nat.le_zero.mp hb)
    subst hbnil
    rfl
  | succ k ih =>
    intro bs hb
    cases hs : splitFirstNL bs with
    | none => rw [drainBuffer_none hs]; exact hs
    | some p =>
      have hlt := splitFirstNL_sub hs
      rw [drainBuffer_some hs]
      exact ih p.2 (by omega)

/-- The drained residue never contains a newline, stated without the length
bookkeeping. -/
theorem drainBuffer_residue_nl (bs : List Nat) :
    splitFirstNL (drainBuffer bs).2 = none :=
  drainBuffer_residue bs.length bs le_rfl

/-- With no newline present the segment view is one trailing segment. -/
theorem splitSegs_none {bs : List Nat} (h : splitFirstNL bs = none) :
    splitSegs bs = ([], bs) := by
  induction bs with
  | nil => rfl
  | cons b rest ih =>
    by_cases hb : b = 10
    · simp [splitFirstNL, hb] at h
    · simp only [splitFirstNL, if_neg hb] at h
      cases hr : splitFirstNL rest with
      | some q => rw [hr] at h; simp at h
      | none => simp [splitSegs, hb, ih hr]

/-- The segment view peels off exactly the first-newline split. -/
theorem splitSegs_some {bs : List Nat} {p : List Nat × List Nat}
    (h : splitFirstNL bs = some p) :
    splitSegs bs = (p.1 :: (splitSegs p.2).1, (splitSegs p.2).2) := by
  induction bs generalizing p with
  | nil => simp [splitFirstNL] at h
  | cons b rest ih =>
    by_cases hb : b = 10
    · simp only [splitFirstNL, if_pos hb, Option.some.injEq] at h
      subst h
      simp [splitSegs, hb]
    · simp only [splitFirstNL, if_neg hb] at h
      cases hr : splitFirstNL rest with
      | none => rw [hr] at h; simp at h
      | some q =>
        rw [hr] at h
        simp only [Option.some.injEq] at h
        subst h
        simp [splitSegs, hb, ih hr]

/-- Characterization of the drain loop: it emits precisely the stripped
newline-terminated segments and leaves the trailing segment in the buffer. -/
theorem drainBuffer_eq_splitSegs :
    ∀ (n : Nat) (bs : List Nat), bs.length ≤ n →
      drainBuffer bs = ((splitSegs bs).1.map strip, (splitSegs bs).2) := by
  intro n
  induction n with
  | zero =>
    intro bs hb
    have hbnil : bs = [] := List.length_eq_zero.mp (Nat.le_zero.mp hb)
    subst hbnil
    rfl
  | succ k ih =>
    intro bs hb
    cases hs : splitFirstNL bs with
    | none => rw [drainBuffer_none hs, splitSegs_none hs]; simp
    | some p =>
      have hlt := splitFirstNL_sub hs
      rw [drainBuffer_some hs, splitSegs_some hs, ih p.2 (by omega)]
      simp

/-- Characterization of the drain loop, stated without the length
bookkeeping. -/
theorem drainBuffer_splitSegs (bs : List Nat) :
    drainBuffer bs = ((splitSegs bs).1.map strip, (splitSegs bs).2) :=
  drainBuffer_eq_splitSegs bs.length bs le_rfl

/-- Processing chunks one receive at a time, starting from a buffer without a
newline, is the same as draining the buffer extended by the whole stream. -/
theorem processChunks_flatten :
    ∀ (chunks : List (List Nat)) (buffer : List Nat), splitFirstNL buffer = none →
      processChunks buffer chunks = drainBuffer (buffer ++ chunks.flatten) := by
  intro chunks
  induction chunks with
  | nil =>
    intro buffer h
    simp [processChunks, drainBuffer_none h]
  | cons c cs ih =>
    intro buffer h
    by_cases hc : c = []
    · subst hc
      simp only [processChunks, readerStep, if_pos rfl]
      simp [ih buffer h]
    · simp only [processChunks, readerStep, if_neg hc]
      have hres := drainBuffer_residue_nl (buffer ++ c)
      rw [ih _ hres]
      have hj : buffer ++ (c :: cs).flatten = (buffer ++ c) ++ cs.flatten := by
        simp [List.flatten_cons, List.append_assoc]
      rw [hj, drainBuffer_append (buffer ++ c).length (buffer ++ c) le_rfl cs.flatten]

/-- The polling loop of read_until dequeues some prefix of the queue and
returns the accumulator extended by exactly its nonempty lines, in order. -/
theorem read_untilGo_spec (expected : List Nat) :
    ∀ (fuel : Nat) (s : QEMURunner) (acc : List (List Nat)),
      ∃ n, ((read_untilGo expected fuel s acc).1).output_queue = s.output_queue.drop n ∧
        (read_untilGo expected fuel s acc).2 =
          acc ++ (s.output_queue.take n).filter (fun l => decide (l ≠ [])) := by
  intro fuel
  induction fuel with
  | zero =>
    intro s acc
    exact ⟨0, by simp [read_untilGo]⟩
  | succ f ih =>
    intro s acc
    cases hq : s.output_queue with
    | nil =>
      have hr : QEMURunner.read_line s = (s, none) := by
        simp [QEMURunner.read_line, hq]
      obtain ⟨n, h1, h2⟩ := ih s acc
      refine ⟨n, ?_, ?_⟩
      · simp only [read_untilGo, hr]
        rw [h1, hq]
      · simp only [read_untilGo, hr]
        rw [h2, hq]
    | cons l rest =>
      have hr : QEMURunner.read_line s = ({ s with output_queue := rest }, some l) := by
        simp [QEMURunner.read_line, hq]
      by_cases hl : l = []
      · subst hl
        obtain ⟨n, h1, h2⟩ := ih { s with output_queue := rest } acc
        refine ⟨n + 1, ?_, ?_⟩
        · simp only [read_untilGo, hr, reduceIte, List.drop_succ_cons]
          exact h1
        · simp only [read_untilGo, hr, reduceIte, List.take_succ_cons, List.filter_cons]
          simpa using h2
      · by_cases hc : bytesContains l expected
        · refine ⟨1, ?_, ?_⟩
          · simp only [read_untilGo, hr, if_neg hl, if_pos hc]
            simp
          · simp only [read_untilGo, hr, if_neg hl, if_pos hc]
            simp [hl]
        · obtain ⟨n, h1, h2⟩ := ih { s with output_queue := rest } (acc ++ [l])
          refine ⟨n + 1, ?_, ?_⟩
          · simp only [read_untilGo, hr, if_neg hl, if_neg hc, List.drop_succ_cons]
            exact h1
          · simp only [read_untilGo, hr, if_neg hl, if_neg hc, List.take_succ_cons,
              List.filter_cons]
            rw [h2]
            simp [hl, List.append_assoc]

/-- The FIFO queue invariant: consumed lines followed by the lines still
queued always equal the initial contents extended by everything the producer
has enqueued, for every interleaving of enqueues and dequeues. -/
theorem runQueue_invariant :
    ∀ (evs : List QEvent) (st : QueueState),
      (runQueue st evs).consumed ++ (runQueue st evs).queue =
        st.consumed ++ st.queue ++ enqueued evs := by
  intro evs
  induction evs with
  | nil => intro st; simp [runQueue, enqueued]
  | cons e evs ih =>
    intro st
    cases e with
    | enq l =>
      simp only [runQueue, enqueued]
      rw [ih]
      simp [List.append_assoc]
    | deq =>
      cases hq : st.queue with
      | nil =>
        simp only [runQueue, hq]
        rw [ih]
        simp [enqueued, hq]
      | cons h t =>
        simp only [runQueue, hq]
        rw [ih]
        simp [enqueued, hq, List.append_assoc]

/-- A reader loop that sees only live-and-non-error iterations never exits. -/
theorem readerLoop_no_exit :
    ∀ (evs : List (Bool × ReadEvent)) (buf : List Nat),
      (∀ p ∈ evs, p.1 = true ∧ p.2 ≠ ReadEvent.connError) →
      (readerLoop buf evs).2 = none := by
  intro evs
  induction evs with
  | nil => intro buf _; rfl
  | cons p evs ih =>
    intro buf h
    obtain ⟨h1, h2⟩ := h p (by simp)
    have hrest : ∀ q ∈ evs, q.1 = true ∧ q.2 ≠ ReadEvent.connError :=
      fun q hq => h q (by simp [hq])
    cases hp : p.2 with
    | timeout => simp [readerLoop, h1, hp, ih buf hrest]
    | connError => exact absurd hp h2
    | data bs =>
      by_cases hb : bs = []
      · simp [readerLoop, h1, hp, hb, ih buf hrest]
      · simp [readerLoop, h1, hp, hb]
        exact ih _ hrest

/-- Net process count of a singleton trace, cons and append unfoldings. -/
theorem procCount_cons (a : Action) (tr : List Action) :
    procCount (a :: tr) = procDelta a + procCount tr := by
  simp [procCount]

/-- Net process count distributes over trace concatenation. -/
theorem procCount_append (t1 t2 : List Action) :
    procCount (t1 ++ t2) = procCount t1 + procCount t2 := by
  simp [procCount]

/-- The at-most-one-live check splits across concatenated traces. -/
theorem neverTwoLive_append (t1 : List Action) :
    ∀ (n : Int) (t2 : List Action),
      neverTwoLive n (t1 ++ t2) =
        (neverTwoLive n t1 && neverTwoLive (n + procCount t1) t2) := by
  induction t1 with
  | nil => intro n t2; simp [neverTwoLive, procCount]
  | cons a t1 ih =>
    intro n t2
    simp [neverTwoLive, procCount_cons, ih, Bool.and_assoc, Int.add_assoc]

/-- The stop method keeps at most one subprocess live throughout its trace
and its trace accounts exactly for the change in live subprocesses. -/
theorem stopT_nv (s : QEMURunner) :
    neverTwoLive (stateCount s) (QEMURunner.stopT s).2 = true ∧
    stateCount (QEMURunner.stopT s).1 =
      stateCount s + procCount (QEMURunner.stopT s).2 := by
  cases hp : s.process <;> cases hs : s.serial <;>
    simp [QEMURunner.stopT, stateCount, neverTwoLive, procCount, procDelta, hp, hs]

/-- The start method keeps at most one subprocess live throughout its trace:
when a process exists it is terminated before the new one is launched. -/
theorem startT_nv (s : QEMURunner) (attempts : List Bool) :
    neverTwoLive (stateCount s) (QEMURunner.startT s attempts).2.2 = true ∧
    stateCount (QEMURunner.startT s attempts).1 =
      stateCount s + procCount (QEMURunner.startT s attempts).2.2 := by
  cases hp : s.process <;> cases hs : s.serial <;>
    simp [QEMURunner.startT, QEMURunner.stopT, stateCount, hp, hs] <;>
    split <;>
    simp [neverTwoLive, procCount, procDelta]

/-- Along any sequence of lifecycle operations the number of live
subprocesses never exceeds one, and the final state accounts for the trace. -/
theorem runOps_nv :
    ∀ (ops : List Op) (s : QEMURunner),
      neverTwoLive (stateCount s) (runOps s ops).2 = true ∧
      stateCount (runOps s ops).1 = stateCount s + procCount (runOps s ops).2 := by
  intro ops
  induction ops with
  | nil => intro s; simp [runOps, neverTwoLive, procCount]
  | cons op ops ih =>
    intro s
    have hop : neverTwoLive (stateCount s) (traceOf s op).2 = true ∧
        stateCount (traceOf s op).1 = stateCount s + procCount (traceOf s op).2 := by
      cases op with
      | opStart attempts => simpa [traceOf] using startT_nv s attempts
      | opStop => simpa [traceOf] using stopT_nv s
    obtain ⟨h1, h2⟩ := hop
    obtain ⟨h3, h4⟩ := ih (traceOf s op).1
    constructor
    · simp only [runOps, neverTwoLive_append, h1, Bool.true_and]
      rw [← h2]
      exact h3
    · simp only [runOps, procCount_append]
      rw [h4, h2]
      omega

/-- C1: the spec claims that a start call whose connection loop exhausts the
overall timeout without connecting fails with a StartError and tears down the
subprocess and socket first.  The code cannot do this: every connection
attempt assigns a fresh socket object to the serial attribute before calling
connect, so after a loop in which every connect attempt failed the guard for
a missing serial attribute does not fire.  Evaluated at a run of three failed
attempts from a fresh runner, start returns normally, keeps the unconnected
socket in the serial attribute, starts the reader thread, and leaves the
launched subprocess running with nothing torn down. -/
theorem c1_start_timeout_returns_normally :
    QEMURunner.startT freshRunner [false, false, false] =
      ({ process := some (), serial := some { connected := false },
          output_queue := [], reader_thread := true },
        StartResult.ok, [Action.popen]) := rfl

/-- C2 counterexample: on a never-started Session the code does not fail with
a NotConnectedError: read_line returns none as a normal value after its
timeout, send_serial of QEMUManager returns false as a normal value, and
send of QEMURunner raises AttributeError, a different error. -/
theorem c2_counterexample_normal_values :
    QEMURunner.read_line freshRunner = (freshRunner, none) ∧
    QEMUManager.send_serial freshManager [112] = false ∧
    QEMURunner.send freshRunner [112] = Except.error PyExn.attributeError :=
  ⟨rfl, rfl, rfl⟩

/-- C2 amended: on a Session whose serial attribute is unset, because it was
never started or already stopped, send of QEMURunner raises AttributeError
rather than a NotConnectedError, read_line returns the head of the queue or
none as a normal value without blocking indefinitely, and send_serial of
QEMUManager returns false as a normal value. -/
theorem c2_amended_disconnected_behaviour (s : QEMURunner) (m : QEMUManager)
    (data : List Nat) (hs : s.serial = none) (hm : m.serial = none) :
    QEMURunner.send s data = Except.error PyExn.attributeError ∧
    (QEMURunner.read_line s).2 = s.output_queue.head? ∧
    QEMUManager.send_serial m data = false := by
  refine ⟨?_, ?_, ?_⟩
  · simp [QEMURunner.send, hs]
  · cases hq : s.output_queue <;> simp [QEMURunner.read_line, hq]
  · simp [QEMUManager.send_serial, hm]

/-- C2 witness: the amended statement evaluated on the fresh runner and
manager. -/
theorem c2_witness :
    QEMURunner.send freshRunner [112] = Except.error PyExn.attributeError ∧
    (QEMURunner.read_line freshRunner).2 = freshRunner.output_queue.head? ∧
    QEMUManager.send_serial freshManager [112] = false :=
  c2_amended_disconnected_behaviour freshRunner freshManager [112] rfl rfl

/-- C3: for every byte stream and every way of splitting it into chunks
across successive receive calls, the reader enqueues the same sequence of
lines as when the whole stream arrives in a single receive call. -/
theorem c3_chunk_boundary_independence (chunks : List (List Nat)) :
    (processChunks [] chunks).1 = (processChunks [] [chunks.flatten]).1 := by
  rw [processChunks_flatten chunks [] rfl, processChunks_flatten [chunks.flatten] [] rfl]
  simp

/-- C4 counterexample: with an empty framed line followed by the line OK in
the queue, read_until for the pattern OK dequeues both entries, as the final
empty queue shows, yet returns only the OK line: the empty line was dequeued
and observed but is missing from the returned list, so the returned list does
not contain every line dequeued during the call. -/
theorem c4_counterexample_empty_line_dropped :
    ((QEMURunner.read_until runnerWithEmptyLine [79, 75] 5).1).output_queue = [] ∧
    (QEMURunner.read_until runnerWithEmptyLine [79, 75] 5).2 = [[79, 75]] ∧
    [] ∉ (QEMURunner.read_until runnerWithEmptyLine [79, 75] 5).2 := by
  decide

/-- C4 amended: every read_until call dequeues some prefix of the queue and
returns exactly the nonempty lines of that prefix, in dequeue order; empty
lines are dequeued but silently dropped from the returned list, because the
code tests the popped line for truthiness before accumulating it. -/
theorem c4_amended_returns_nonempty_dequeued (s : QEMURunner) (expected : List Nat)
    (fuel : Nat) :
    ∃ n, ((QEMURunner.read_until s expected fuel).1).output_queue = s.output_queue.drop n ∧
      (QEMURunner.read_until s expected fuel).2 =
        (s.output_queue.take n).filter (fun l => decide (l ≠ [])) := by
  obtain ⟨n, h1, h2⟩ := read_untilGo_spec expected fuel s []
  exact ⟨n, h1, by simpa using h2⟩

/-- C5 counterexample: on the stream of a space, the letter h and a newline,
the reader emits the line holding only the letter h, not the line obtained by
trimming trailing whitespace alone: the leading space is removed as well, so
the claim that leading bytes are preserved unchanged is false. -/
theorem c5_counterexample_leading_whitespace_stripped :
    (drainBuffer [32, 104, 10]).1 ≠ [rstrip [32, 104]] := by decide

/-- C5 amended: every line the reader emits equals the buffer prefix up to
the first newline delimiter with whitespace trimmed from both ends, since the
code applies the Python bytes strip method; leading whitespace is removed,
not preserved. -/
theorem c5_amended_lines_fully_stripped (bs : List Nat) :
    (drainBuffer bs).1 = (splitSegs bs).1.map strip := by
  rw [drainBuffer_splitSegs]

/-- C6: for every interleaving of the single producer enqueuing the framed
lines with consumer read_line dequeues, the lines consumers have received
followed by the lines still queued equal the framed-line sequence itself, so
consumers receive the framed lines in exact framing order with no reordering
and no duplication. -/
theorem c6_fifo_order (chunks : List (List Nat)) (evs : List QEvent)
    (h : enqueued evs = (processChunks [] chunks).1) :
    (runQueue { queue := [], consumed := [] } evs).consumed ++
      (runQueue { queue := [], consumed := [] } evs).queue =
      (processChunks [] chunks).1 := by
  have hinv := runQueue_invariant evs { queue := [], consumed := [] }
  simpa [h] using hinv

/-- C6 witness: the ordering guarantee on a concrete enqueue-dequeue trace. -/
theorem c6_witness :
    (runQueue { queue := [], consumed := [] }
        [QEvent.enq [104, 105], QEvent.deq]).consumed ++
      (runQueue { queue := [], consumed := [] }
        [QEvent.enq [104, 105], QEvent.deq]).queue =
      (processChunks [] [[104, 105, 10]]).1 :=
  c6_fifo_order [[104, 105, 10]] [QEvent.enq [104, 105], QEvent.deq] (by decide)

/-- C7 counterexample: stop_qemu of QEMUManager, on a manager with a live
subprocess and a connected serial socket, terminates the subprocess first and
closes the serial connection only afterwards, so the claim that the Transport
Connection is fully closed before the ProcessHandle is terminated fails on
this stop path. -/
theorem c7_counterexample_manager_terminates_before_close :
    stopQemuTrace liveManager = [Action.terminateProc, Action.closeSerial] ∧
    termAfterClose (stopQemuTrace liveManager) false = false :=
  ⟨rfl, rfl⟩

/-- C7 amended: the stop method of QEMURunner closes the serial connection
before terminating the subprocess, and along every sequence of start and stop
operations from a fresh runner at most one emulator subprocess is live at any
point, because start retires the previous process before launching anew; but
stop_qemu of QEMUManager terminates the process before closing the serial
connection. -/
theorem c7_amended_close_order_and_single_process (s : QEMURunner)
    (m : QEMUManager) (ops : List Op)
    (hs : s.serial.isSome = true) (hp : s.process.isSome = true)
    (hm1 : m.process.isSome = true) (hm2 : m.serial.isSome = true) :
    (QEMURunner.stopT s).2 = [Action.closeSerial, Action.terminateProc] ∧
    stopQemuTrace m = [Action.terminateProc, Action.closeSerial] ∧
    neverTwoLive 0 (runOps freshRunner ops).2 = true := by
  refine ⟨?_, ?_, ?_⟩
  · simp [QEMURunner.stopT, hs, hp]
  · simp [stopQemuTrace, hm1, hm2]
  · have hnv := (runOps_nv ops freshRunner).1
    simpa [stateCount, freshRunner] using hnv

/-- C7 witness: the amended statement evaluated on a live runner, the live
manager and a concrete restart sequence. -/
theorem c7_witness :
    (QEMURunner.stopT liveRunner).2 = [Action.closeSerial, Action.terminateProc] ∧
    stopQemuTrace liveManager = [Action.terminateProc, Action.closeSerial] ∧
    neverTwoLive 0
      (runOps freshRunner [Op.opStart [true], Op.opStart [true], Op.opStop]).2 = true :=
  c7_amended_close_order_and_single_process liveRunner liveManager
    [Op.opStart [true], Op.opStart [true], Op.opStop] rfl rfl rfl rfl

/-- C8: the reader loop never exits because of a receive timeout: a timeout
iteration is a no-op that loops again without emitting, and over any sequence
of iterations that are all live and free of connection errors the loop is
still running, so it can only terminate when the serial attribute is cleared
by stop or the connection fails. -/
theorem c8_reader_loop_survives_timeouts (buf : List Nat)
    (evs : List (Bool × ReadEvent))
    (h : ∀ p ∈ evs, p.1 = true ∧ p.2 ≠ ReadEvent.connError) :
    (readerLoop buf evs).2 = none ∧
    readerLoop buf ((true, ReadEvent.timeout) :: evs) = readerLoop buf evs :=
  ⟨readerLoop_no_exit evs buf h, rfl⟩

/-- C8 witness: a lone timeout iteration leaves the loop running and changes
nothing. -/
theorem c8_witness :
    (readerLoop [] [(true, ReadEvent.timeout)]).2 = none ∧
    readerLoop [] ((true, ReadEvent.timeout) :: [(true, ReadEvent.timeout)]) =
      readerLoop [] [(true, ReadEvent.timeout)] :=
  c8_reader_loop_survives_timeouts [] [(true, ReadEvent.timeout)] (by decide)

/-- C9: the reader delivers only newline-terminated segments: over any
chunked stream the enqueued lines are exactly the stripped newline-terminated
segments, the bytes after the last newline remain in the private buffer, and
stop does not enqueue them, leaving the queue unchanged, so an unterminated
trailing segment is silently discarded. -/
theorem c9_trailing_bytes_stay_in_buffer (chunks : List (List Nat))
    (s : QEMURunner) :
    (processChunks [] chunks).1 = (splitSegs chunks.flatten).1.map strip ∧
    (processChunks [] chunks).2 = (splitSegs chunks.flatten).2 ∧
    (QEMURunner.stop s).output_queue = s.output_queue := by
  refine ⟨?_, ?_, rfl⟩
  · rw [processChunks_flatten chunks [] rfl]
    simp [drainBuffer_splitSegs]
  · rw [processChunks_flatten chunks [] rfl]
    simp [drainBuffer_splitSegs]

/-- C10: no lifecycle operation clears or replaces the output queue: start,
including the restart path on an already-started Session, and stop leave the
queue contents unchanged, so lines from a previous run stay dequeuable. -/
theorem c10_lifecycle_preserves_queue (s : QEMURunner) (attempts : List Bool) :
    ((QEMURunner.start s attempts).1).output_queue = s.output_queue ∧
    (QEMURunner.stop s).output_queue = s.output_queue := by
  constructor
  · by_cases hp : s.process.isSome <;>
      simp [QEMURunner.start, QEMURunner.startT, QEMURunner.stopT, hp] <;>
      split <;> rfl
  · rfl

end QemuHarness
